import Mathlib

/-!
Verification of the plotting, report-layout and data-utility logic of the
fooof/specparam repository excerpt.

Keys of a results mapping are modelled as lists of characters, and a results
mapping as an association list, which preserves insertion order exactly as a
Python dict does.  Numeric values are rationals; a possibly-missing (NaN)
value is an `Option` rational, with `none` standing for NaN.
-/

/-- A mapping key, modelled as its character sequence. -/
abbrev RKey : Type := List Char

/-- The suffix characters of a band-prefixed center-frequency key. -/
def sfxCf : RKey := ['_', 'c', 'f']

/-- The suffix characters of a band-prefixed power key. -/
def sfxPw : RKey := ['_', 'p', 'w']

/-- The suffix characters of a band-prefixed bandwidth key. -/
def sfxBw : RKey := ['_', 'b', 'w']

/-- The bare center-frequency key used when exactly one band is modeled. -/
def bareCf : RKey := ['c', 'f']

/-- The bare power key used when exactly one band is modeled. -/
def barePw : RKey := ['p', 'w']

/-- The bare bandwidth key used when exactly one band is modeled. -/
def bareBw : RKey := ['b', 'w']

/-- A key matches an attribute when it ends with the band-prefixed suffix of
that attribute, or is the bare attribute key itself. -/
def matchesAttr (sfx bare k : RKey) : Prop :=
  List.IsSuffix sfx k ∨ k = bare

instance (sfx bare k : RKey) : Decidable (matchesAttr sfx bare k) := by
  unfold matchesAttr
  exact inferInstance

/-- The grouped periodic labels: one list of key names per peak attribute. -/
structure PeriodicLabels where
  cf : List RKey
  pw : List RKey
  bw : List RKey

/-- The key names of `results` matching one attribute, in insertion order. -/
def attrKeys (sfx bare : RKey) (results : List (RKey × α)) : List RKey :=
  (results.map Prod.fst).filter (fun k => decide (matchesAttr sfx bare k))

/-- Modelled from the spec: `get_periodic_labels` of `specparam.data.utils`
(only its tests appear in the excerpt).  Given a results mapping, it returns
the mapping from each attribute `cf`, `pw`, `bw` to the list of full key
names found in the results that end with `_cf`, `_pw`, `_bw` respectively, or
the bare keys `cf`, `pw`, `bw` if present, in the input iteration order. -/
def get_periodic_labels (results : List (RKey × α)) : PeriodicLabels where
  cf := attrKeys sfxCf bareCf results
  pw := attrKeys sfxPw barePw results
  bw := attrKeys sfxBw bareBw results

/-- Strip a trailing attribute suffix (`_cf`, `_pw` or `_bw`) from a key,
leaving keys without such a suffix unchanged. -/
def stripAttr (k : RKey) : RKey :=
  if List.IsSuffix sfxCf k ∨ List.IsSuffix sfxPw k ∨ List.IsSuffix sfxBw k then
    List.take (List.length k - 3) k
  else k

/-- Deduplicate a list keeping the first occurrence of each element. -/
def dedupFirst [DecidableEq α] (l : List α) : List α :=
  l.foldl (fun acc x => if x ∈ acc then acc else acc ++ [x]) []

/-- Modelled from the spec: band labels derived from an already-parsed
periodic-labels mapping: strip the attribute suffix from each key of the
`cf` list, in order, deduplicating while preserving first-seen order. -/
def get_band_labels_from (labels : PeriodicLabels) : List RKey :=
  dedupFirst (labels.cf.map stripAttr)

/-- Modelled from the spec: `get_band_labels` of `specparam.data.utils`
applied to a raw results mapping: parse with `get_periodic_labels` first,
then strip suffixes and deduplicate preserving first-seen order. -/
def get_band_labels (results : List (RKey × α)) : List RKey :=
  get_band_labels_from (get_periodic_labels results)

/-- Modelled from the spec: `get_results_by_ind` of `specparam.data.utils`
(only its tests appear in the excerpt).  Projects out, for every key, the
scalar at a flat index of the corresponding one-dimensional sequence,
keeping the key names; an index out of bounds for any sequence makes the
whole call fail with an index error, modelled as `none`. -/
def get_results_by_ind (results : List (RKey × List α)) (ind : Nat) :
    Option (List (RKey × α)) :=
  match results with
  | [] => some []
  | (k, vs) :: rest =>
    match vs.get? ind, get_results_by_ind rest ind with
    | some v, some out => some ((k, v) :: out)
    | _, _ => none

/-- Modelled from the spec: `get_results_by_row` of `specparam.data.utils`
(only its tests appear in the excerpt).  Projects out, for every key, the
full row at a row index of the corresponding two-dimensional array, keeping
the key names; a row index out of bounds for any array makes the whole call
fail with an index error, modelled as `none`. -/
def get_results_by_row (results : List (RKey × List (List α))) (ind : Nat) :
    Option (List (RKey × List α)) :=
  match results with
  | [] => some []
  | (k, rows) :: rest =>
    match rows.get? ind, get_results_by_row rest ind with
    | some r, some out => some ((k, r) :: out)
    | _, _ => none

/-!
Peak plotting (`fooof.plts.periodic.plot_peak_fits`).  A peak row is a
triple of possibly-missing center frequency, power and bandwidth; `none`
models a NaN entry.
-/

/-- A peak-parameter row `[CF, PW, BW]` with possibly-missing (NaN) values. -/
abbrev PeakRow : Type := Option ℚ × Option ℚ × Option ℚ

/-- The center-frequency column of a peak array with the NaN entries
excluded, as computed by `peaks[~np.isnan(peaks[:, 0]), 0]`. -/
def extractCfs (peaks : List PeakRow) : List ℚ :=
  peaks.filterMap (fun r => r.1)

/-- The frequency buffer added around the data range of center frequencies. -/
def fBuffer : ℚ := 4

/-- The default frequency range of `plot_peak_fits`: the minimum minus the
buffer, floored at zero by a strict comparison, up to the maximum plus the
buffer; an empty collection of center frequencies makes the reduction fail,
modelled as `none`. -/
def defaultFreqRange (cfs : List ℚ) : Option (ℚ × ℚ) :=
  match cfs with
  | [] => none
  | c :: cs =>
    let mn := cs.foldl min c
    let mx := cs.foldl max c
    some (if mn - fBuffer > 0 then mn - fBuffer else 0, mx + fBuffer)

/-- The frequency range used by the non-list branch of `plot_peak_fits`: a
caller-supplied range is kept, otherwise it is derived from the non-NaN
center frequencies of the peak array. -/
def resolveFreqRange (freqRange : Option (ℚ × ℚ)) (peaks : List PeakRow) :
    Option (ℚ × ℚ) :=
  match freqRange with
  | some fr => some fr
  | none => defaultFreqRange (extractCfs peaks)

/-- One step of the running NaN-safe sum in `plot_peak_fits`:
`np.nansum(np.vstack([avg_vals, peak_vals]), axis=0)` adds each entry of the
current peak curve to the accumulator, treating a NaN entry as zero. -/
def nansumStep (acc : List ℚ) (curve : List (Option ℚ)) : List ℚ :=
  List.zipWith (fun a o => a + o.getD 0) acc curve

/-- The accumulated `avg_vals` of `plot_peak_fits`: starting from a zero
vector over the frequency axis, fold the NaN-safe sum over the per-peak
reconstructed curves. -/
def avgVals (nFreqs : Nat) (curves : List (List (Option ℚ))) : List ℚ :=
  curves.foldl nansumStep (List.replicate nFreqs 0)

/-- The averaged curve of `plot_peak_fits`: the NaN-safe sum of the
per-peak curves divided by `peaks.shape[0]`, the total number of peak
rows. -/
def avgCurve (nFreqs : Nat) (curves : List (List (Option ℚ))) : List ℚ :=
  (avgVals nFreqs curves).map (fun v => v / (curves.length : ℚ))

/-- The NaN-respecting value at an index of a reconstructed curve: a NaN
entry has no value, so it is read as zero only by the NaN-safe sum. -/
def nanValAt (curve : List (Option ℚ)) (j : Nat) : ℚ :=
  match curve.get? j with
  | some (some v) => v
  | _ => 0

/-- Exact element-wise equality between a plain-valued curve and a
possibly-missing curve: the lengths agree and every entry matches, where a
missing (NaN) entry compares unequal to every value, as NaN does under
IEEE comparison. -/
def curveEq : List ℚ → List (Option ℚ) → Bool
  | [], [] => true
  | a :: as, some v :: os => decide (a = v) && curveEq as os
  | _, _ => false

/-!
Report layout (`specparam.core.reports`): the grid row counts and the
height-ratio lists computed by `save_time_report` and `save_event_report`
from the number of bands, the presence of a knee parameter, and the
settings toggle.
-/

/-- The grid row count of `save_time_report`:
`n_rows = 1 + 2 + n_bands + (1 if add_settings else 0)`. -/
def save_time_report_n_rows (nBands : Nat) (addSettings : Bool) : Nat :=
  1 + 2 + nBands + (if addSettings then 1 else 0)

/-- The height-ratio list of `save_time_report`:
`[1.0] + [0.5] * (n_bands + 2) + ([0.4] if add_settings else [])`. -/
def save_time_report_height_ratios (nBands : Nat) (addSettings : Bool) :
    List ℚ :=
  [1] ++ List.replicate (nBands + 2) (1 / 2) ++
    (if addSettings then [2 / 5] else [])

/-- The grid row count of `save_event_report`:
`n_rows = 1 + (4 if has_knee else 3) + (n_bands * 4) + 2
        + (1 if add_settings else 0)`. -/
def save_event_report_n_rows (nBands : Nat) (hasKnee addSettings : Bool) :
    Nat :=
  1 + (if hasKnee then 4 else 3) + nBands * 4 + 2 +
    (if addSettings then 1 else 0)

/-- The height-ratio list of `save_event_report`:
`[2.75] + [1] * (3 if has_knee else 2) + [0.25, 1, 1, 1] * n_bands
 + [0.25] + [1, 1] + ([1.5] if add_settings else [])`. -/
def save_event_report_height_ratios (nBands : Nat)
    (hasKnee addSettings : Bool) : List ℚ :=
  [11 / 4] ++ List.replicate (if hasKnee then 3 else 2) 1 ++
    (List.replicate nBands ([1 / 4, 1, 1, 1] : List ℚ)).flatten ++
    [1 / 4] ++ [1, 1] ++ (if addSettings then [3 / 2] else [])

/-!
Dependency checking.  The module-level `plt = safe_import('.pyplot',
'matplotlib')` yields an unavailable marker when matplotlib is missing, and
the `@check_dependency(plt, 'matplotlib')` decorator, where present, makes
the call raise immediately in that case instead of entering the body.
-/

/-- The observable entry behaviour of a plotting or report function when
called. -/
inductive EntryOutcome where
  | dependencyError : EntryOutcome
  | bodyEntered : EntryOutcome
deriving DecidableEq

/-- Modelled from the spec: the `check_dependency` decorator of the
`modutils` module (not part of the excerpt).  A decorated function raises a
dependency error at entry when the rendering dependency is unavailable;
an undecorated function always enters its body. -/
def callEntry (decorated : Bool) (mplAvailable : Bool) : EntryOutcome :=
  if decorated && !mplAvailable then EntryOutcome.dependencyError
  else EntryOutcome.bodyEntered

/-- `plot_peak_params` carries `@check_dependency(plt, 'matplotlib')`. -/
def plot_peak_params_decorated : Bool := true

/-- `plot_peak_fits` carries no `@check_dependency` decorator. -/
def plot_peak_fits_decorated : Bool := false

/-- `save_model_report` carries `@check_dependency(plt, 'matplotlib')`. -/
def save_model_report_decorated : Bool := true

/-- `save_group_report` carries `@check_dependency(plt, 'matplotlib')`. -/
def save_group_report_decorated : Bool := true

/-- `save_time_report` carries `@check_dependency(plt, 'matplotlib')`. -/
def save_time_report_decorated : Bool := true

/-- `save_event_report` carries `@check_dependency(plt, 'matplotlib')`. -/
def save_event_report_decorated : Bool := true

/-!
Figure lifecycle of the report functions.  Each `save_*_report` body is a
straight-line sequence of statements: open one figure, draw text and data
panels, save the figure to a file, and close it with a final `plt.close()`.
There is no `try`/`finally` around the sequence, so an exception raised by
any statement propagates immediately and the statements after it, the
closing call included, are skipped.
-/

/-- One statement of a report-function body, viewed by its effect on the
set of open figures. -/
inductive RStep where
  | openFig : RStep
  | drawText : RStep
  | plotData : RStep
  | saveFig : RStep
  | closeFig : RStep
deriving DecidableEq

/-- The effect of one completed statement on the number of open figures. -/
def applyStep (s : RStep) (figs : Nat) : Nat :=
  match s with
  | RStep.openFig => figs + 1
  | RStep.closeFig => figs - 1
  | _ => figs

/-- Python exception semantics of a straight-line statement sequence: each
statement either completes, applying its effect, or raises, aborting the
sequence with the open-figure count at that point; the remaining
statements do not run. -/
def runSteps (fails : RStep → Bool) (steps : List RStep) (figs : Nat) :
    Except Nat Nat :=
  match steps with
  | [] => Except.ok figs
  | s :: rest =>
    if fails s then Except.error figs
    else runSteps fails rest (applyStep s figs)

/-- The statement sequence of `save_model_report`: figure creation, the
results text, the data plot, optionally the settings text, then
`plt.savefig` and the final `plt.close()`. -/
def save_model_report_steps (addSettings : Bool) : List RStep :=
  [RStep.openFig, RStep.drawText, RStep.plotData] ++
    (if addSettings then [RStep.drawText] else []) ++
    [RStep.saveFig, RStep.closeFig]

/-- The statement sequence of `save_group_report`: figure creation, the
results text, three data plots, optionally the settings text, then
`plt.savefig` and the final `plt.close()`. -/
def save_group_report_steps (addSettings : Bool) : List RStep :=
  [RStep.openFig, RStep.drawText, RStep.plotData, RStep.plotData,
   RStep.plotData] ++
    (if addSettings then [RStep.drawText] else []) ++
    [RStep.saveFig, RStep.closeFig]

/-- The statement sequence of `save_time_report`: figure creation, the
results text, the delegated data plots, optionally the settings text, then
`plt.savefig` and the final `plt.close()`. -/
def save_time_report_steps (addSettings : Bool) : List RStep :=
  [RStep.openFig, RStep.drawText, RStep.plotData] ++
    (if addSettings then [RStep.drawText] else []) ++
    [RStep.saveFig, RStep.closeFig]

/-- The statement sequence of `save_event_report`: figure creation, the
results text, the delegated data plots, optionally the settings text, then
`plt.savefig` and the final `plt.close()`. -/
def save_event_report_steps (addSettings : Bool) : List RStep :=
  [RStep.openFig, RStep.drawText, RStep.plotData] ++
    (if addSettings then [RStep.drawText] else []) ++
    [RStep.saveFig, RStep.closeFig]

/-!
Concrete results mappings used to instantiate the theorems, taken from the
test data of `specparam.tests.data.test_utils`.
-/

/-- The test mapping with aperiodic keys only and no periodic keys. -/
def tdictBase : List (RKey × List Nat) :=
  [(['o', 'f', 'f', 's', 'e', 't'], [1, 1]),
   (['e', 'x', 'p', 'o', 'n', 'e', 'n', 't'], [1, 1]),
   (['e', 'r', 'r', 'o', 'r'], [1, 1]),
   (['r', '_', 's', 'q', 'u', 'a', 'r', 'e', 'd'], [1, 1])]

/-- The test mapping with two bands, `alpha` and `beta`, in that insertion
order after the aperiodic keys. -/
def tdictTwoBands : List (RKey × List Nat) :=
  tdictBase ++
  [(['a', 'l', 'p', 'h', 'a'] ++ sfxCf, [1, 1]),
   (['a', 'l', 'p', 'h', 'a'] ++ sfxPw, [1, 1]),
   (['a', 'l', 'p', 'h', 'a'] ++ sfxBw, [1, 1]),
   (['b', 'e', 't', 'a'] ++ sfxCf, [1, 1]),
   (['b', 'e', 't', 'a'] ++ sfxPw, [1, 1]),
   (['b', 'e', 't', 'a'] ++ sfxBw, [1, 1])]

/-- The two band names of `tdictTwoBands`, in insertion order. -/
def bandsAB : List RKey :=
  [['a', 'l', 'p', 'h', 'a'], ['b', 'e', 't', 'a']]

/-!
Helper lemmas about the label parser.
-/

/-- Stripping the attribute suffix from a band-prefixed center-frequency
key recovers the band name. -/
theorem stripAttr_append_cf (b : RKey) : stripAttr (b ++ sfxCf) = b := by
  have hsfx : List.IsSuffix sfxCf (b ++ sfxCf) := List.suffix_append b sfxCf
  unfold stripAttr
  rw [if_pos (Or.inl hsfx)]
  simp [sfxCf]

/-- Folding the first-seen accumulator over a duplicate-free list disjoint
from the accumulator appends the list unchanged. -/
theorem dedupFirst_go {α : Type} [DecidableEq α] (l : List α) :
    ∀ acc : List α, l.Nodup → (∀ x ∈ l, x ∉ acc) →
      l.foldl (fun acc x => if x ∈ acc then acc else acc ++ [x]) acc =
        acc ++ l := by
  induction l with
  | nil => intro acc _ _; simp
  | cons a t ih =>
    intro acc hd hout
    simp only [List.foldl_cons]
    rw [if_neg (hout a (List.mem_cons_self a t))]
    rw [ih (acc ++ [a]) (List.Nodup.of_cons hd) ?_]
    · simp
    · intro x hx hmem
      rcases List.mem_append.mp hmem with h1 | h2
      · exact hout x (List.mem_cons_of_mem a hx) h1
      · rw [List.mem_singleton] at h2
        subst h2
        exact (List.nodup_cons.mp hd).1 hx

/-- Deduplication keeping first occurrences leaves a duplicate-free list
unchanged. -/
theorem dedupFirst_eq_self {α : Type} [DecidableEq α] (l : List α)
    (h : l.Nodup) : dedupFirst l = l := by
  unfold dedupFirst
  rw [dedupFirst_go l [] h (by simp)]
  simp

/-- A mapping none of whose keys matches an attribute has an empty key list
for that attribute. -/
theorem attrKeys_eq_nil {α : Type} (sfx bare : RKey)
    (results : List (RKey × α))
    (h : ∀ kv ∈ results, ¬ matchesAttr sfx bare kv.1) :
    attrKeys sfx bare results = [] := by
  unfold attrKeys
  rw [List.filter_eq_nil_iff]
  intro a ha
  rcases List.mem_map.mp ha with ⟨kv, hkv, rfl⟩
  simpa using h kv hkv

/-- C1: for a results mapping whose band keys encode N bands through the
band-prefixed naming pattern, `get_periodic_labels` returns exactly N
entries in each of the `cf`, `pw` and `bw` lists, and `get_band_labels`
returns exactly the N distinct band names in first-seen insertion order,
deduplicated. -/
theorem get_labels_n_bands {α : Type} (results : List (RKey × α))
    (bands : List RKey) (hnd : bands.Nodup)
    (hcf : (get_periodic_labels results).cf = bands.map (fun b => b ++ sfxCf))
    (hpw : (get_periodic_labels results).pw = bands.map (fun b => b ++ sfxPw))
    (hbw : (get_periodic_labels results).bw = bands.map (fun b => b ++ sfxBw)) :
    (get_periodic_labels results).cf.length = bands.length ∧
    (get_periodic_labels results).pw.length = bands.length ∧
    (get_periodic_labels results).bw.length = bands.length ∧
    get_band_labels results = bands := by
  refine ⟨by rw [hcf]; simp, by rw [hpw]; simp, by rw [hbw]; simp, ?_⟩
  unfold get_band_labels get_band_labels_from
  rw [hcf, List.map_map]
  have hcomp : (stripAttr ∘ fun b => b ++ sfxCf) = id :=
    funext fun b => stripAttr_append_cf b
  rw [hcomp, List.map_id]
  exact dedupFirst_eq_self bands hnd

/-- C1 witness: the two-band test mapping has two entries per attribute
list and band labels `alpha`, `beta` in insertion order. -/
theorem get_labels_n_bands_witness :
    bandsAB.Nodup ∧
    ((get_periodic_labels tdictTwoBands).cf.length = bandsAB.length ∧
     (get_periodic_labels tdictTwoBands).pw.length = bandsAB.length ∧
     (get_periodic_labels tdictTwoBands).bw.length = bandsAB.length ∧
     get_band_labels tdictTwoBands = bandsAB) :=
  ⟨by decide,
   get_labels_n_bands tdictTwoBands bandsAB (by decide) (by decide)
     (by decide) (by decide)⟩

/-- C6: for a results mapping containing no band-prefixed keys and no bare
attribute keys, `get_periodic_labels` returns empty lists for all three
attributes and `get_band_labels` returns an empty list, with no failure. -/
theorem get_labels_no_bands {α : Type} (results : List (RKey × α))
    (h : ∀ kv ∈ results,
      ¬ matchesAttr sfxCf bareCf kv.1 ∧
      ¬ matchesAttr sfxPw barePw kv.1 ∧
      ¬ matchesAttr sfxBw bareBw kv.1) :
    (get_periodic_labels results).cf = [] ∧
    (get_periodic_labels results).pw = [] ∧
    (get_periodic_labels results).bw = [] ∧
    get_band_labels results = [] := by
  have hcf := attrKeys_eq_nil sfxCf bareCf results (fun kv hkv => (h kv hkv).1)
  have hpw := attrKeys_eq_nil sfxPw barePw results (fun kv hkv => (h kv hkv).2.1)
  have hbw := attrKeys_eq_nil sfxBw bareBw results (fun kv hkv => (h kv hkv).2.2)
  refine ⟨hcf, hpw, hbw, ?_⟩
  unfold get_band_labels get_band_labels_from
  show dedupFirst ((get_periodic_labels results).cf.map stripAttr) = []
  rw [show (get_periodic_labels results).cf = attrKeys sfxCf bareCf results
        from rfl, hcf]
  rfl

/-- C6 witness: the aperiodic-only test mapping yields empty attribute
lists and an empty band-label list. -/
theorem get_labels_no_bands_witness :
    (get_periodic_labels tdictBase).cf = [] ∧
    (get_periodic_labels tdictBase).pw = [] ∧
    (get_periodic_labels tdictBase).bw = [] ∧
    get_band_labels tdictBase = [] :=
  get_labels_no_bands tdictBase (by decide)

/-- An in-bounds lookup yields the default-read element. -/
theorem getq_eq_getD {α : Type} (l : List α) (i : Nat) (d : α)
    (h : i < l.length) : l.get? i = some (l.getD i d) := by
  rw [List.getD_eq_getElem?_getD, List.get?_eq_getElem?,
    List.getElem?_eq_getElem h]
  rfl

/-- C2: for a results mapping and an index valid for all of its value
sequences, `get_results_by_ind` succeeds and returns a mapping with exactly
the same keys, each value being the element of the corresponding sequence
at that index. -/
theorem get_results_by_ind_spec {α : Type} (results : List (RKey × List α))
    (ind : Nat) (v₀ : α) (h : ∀ kv ∈ results, ind < kv.2.length) :
    get_results_by_ind results ind =
      some (results.map (fun kv => (kv.1, kv.2.getD ind v₀))) ∧
    (results.map (fun kv => (kv.1, kv.2.getD ind v₀))).map Prod.fst =
      results.map Prod.fst := by
  constructor
  · induction results with
    | nil => rfl
    | cons kv rest ih =>
      obtain ⟨k, vs⟩ := kv
      have h1 : ind < vs.length := h (k, vs) (List.mem_cons_self _ _)
      have hrest := ih (fun x hx => h x (List.mem_cons_of_mem _ hx))
      have hv : vs.get? ind = some (vs.getD ind v₀) := getq_eq_getD vs ind v₀ h1
      simp only [get_results_by_ind, hv, hrest, List.map_cons]
  · simp

/-- C2 witness: index 1 is valid for the test mapping and the projection
returns exactly the per-key elements at index 1. -/
theorem get_results_by_ind_spec_witness :
    (∀ kv ∈ tdictTwoBands, 1 < kv.2.length) ∧
    (get_results_by_ind tdictTwoBands 1 =
      some (tdictTwoBands.map (fun kv => (kv.1, kv.2.getD 1 0))) ∧
    (tdictTwoBands.map (fun kv => (kv.1, kv.2.getD 1 0))).map Prod.fst =
      tdictTwoBands.map Prod.fst) :=
  ⟨by decide, get_results_by_ind_spec tdictTwoBands 1 0 (by decide)⟩

/-- C3: for a results mapping whose values are two-dimensional arrays and a
row index valid for all of them, `get_results_by_row` succeeds and returns
a mapping with exactly the same keys, each value being the full row of the
corresponding array at that index. -/
theorem get_results_by_row_spec {α : Type}
    (results : List (RKey × List (List α))) (ind : Nat)
    (h : ∀ kv ∈ results, ind < kv.2.length) :
    get_results_by_row results ind =
      some (results.map (fun kv => (kv.1, kv.2.getD ind []))) ∧
    (results.map (fun kv => (kv.1, kv.2.getD ind []))).map Prod.fst =
      results.map Prod.fst := by
  constructor
  · induction results with
    | nil => rfl
    | cons kv rest ih =>
      obtain ⟨k, rows⟩ := kv
      have h1 : ind < rows.length := h (k, rows) (List.mem_cons_self _ _)
      have hrest := ih (fun x hx => h x (List.mem_cons_of_mem _ hx))
      have hv : rows.get? ind = some (rows.getD ind []) :=
        getq_eq_getD rows ind [] h1
      simp only [get_results_by_row, hv, hrest, List.map_cons]
  · simp

/-- The two-dimensional test mapping of `test_get_results_by_row`: every
key holds the array `[[0, 1], [2, 3]]`. -/
def tdictRows : List (RKey × List (List Nat)) :=
  [(['o', 'f', 'f', 's', 'e', 't'], [[0, 1], [2, 3]]),
   (['e', 'x', 'p', 'o', 'n', 'e', 'n', 't'], [[0, 1], [2, 3]]),
   (['e', 'r', 'r', 'o', 'r'], [[0, 1], [2, 3]]),
   (['r', '_', 's', 'q', 'u', 'a', 'r', 'e', 'd'], [[0, 1], [2, 3]]),
   (['a', 'l', 'p', 'h', 'a'] ++ sfxCf, [[0, 1], [2, 3]]),
   (['a', 'l', 'p', 'h', 'a'] ++ sfxPw, [[0, 1], [2, 3]]),
   (['a', 'l', 'p', 'h', 'a'] ++ sfxBw, [[0, 1], [2, 3]])]

/-- C3 witness: row index 1 is valid for the two-dimensional test mapping
and the projection returns exactly the row `[2, 3]` for every key. -/
theorem get_results_by_row_spec_witness :
    (∀ kv ∈ tdictRows, 1 < kv.2.length) ∧
    (get_results_by_row tdictRows 1 =
      some (tdictRows.map (fun kv => (kv.1, kv.2.getD 1 []))) ∧
    (tdictRows.map (fun kv => (kv.1, kv.2.getD 1 []))).map Prod.fst =
      tdictRows.map Prod.fst) :=
  ⟨by decide, get_results_by_row_spec tdictRows 1 (by decide)⟩

/-- C5: when no frequency range is given, `plot_peak_fits` derives the
plotted range from the NaN-excluded center frequencies as the minimum
minus four clamped below at zero, up to the maximum plus four. -/
theorem plot_peak_fits_default_range (peaks : List PeakRow) (mn mx : ℚ)
    (hmn : (extractCfs peaks).min? = some mn)
    (hmx : (extractCfs peaks).max? = some mx) :
    resolveFreqRange none peaks = some (max (mn - fBuffer) 0, mx + fBuffer) := by
  cases hcfs : extractCfs peaks with
  | nil =>
    rw [hcfs] at hmn
    simp [List.min?] at hmn
  | cons c cs =>
    rw [hcfs] at hmn hmx
    have hmn' : cs.foldl min c = mn := by simpa [List.min?] using hmn
    have hmx' : cs.foldl max c = mx := by simpa [List.max?] using hmx
    show defaultFreqRange (extractCfs peaks) = _
    rw [hcfs]
    unfold defaultFreqRange
    simp only [hmn', hmx']
    have hclamp : (if mn - fBuffer > 0 then mn - fBuffer else 0) =
        max (mn - fBuffer) 0 := by
      rcases le_or_lt (mn - fBuffer) 0 with hle | hlt
      · rw [if_neg (not_lt.mpr hle), max_eq_right hle]
      · rw [if_pos hlt, max_eq_left hlt.le]
    rw [hclamp]

/-- A peak array whose rows have center frequencies eight and twelve. -/
def peaksMid : List PeakRow :=
  [(some 8, some 1, some 2), (some 12, some 1, some 2)]

/-- A peak array whose rows have center frequencies one and two. -/
def peaksLow : List PeakRow :=
  [(some 1, some 1, some 1), (some 2, some 1, some 1)]

/-- C5 witness: center frequencies eight and twelve give the range four to
sixteen, and center frequencies one and two clamp the lower bound to
zero. -/
theorem plot_peak_fits_default_range_witness :
    ((extractCfs peaksMid).min? = some 8 ∧
     (extractCfs peaksMid).max? = some 12 ∧
     resolveFreqRange none peaksMid = some (4, 16)) ∧
    ((extractCfs peaksLow).min? = some 1 ∧
     (extractCfs peaksLow).max? = some 2 ∧
     resolveFreqRange none peaksLow = some (0, 6)) := by
  refine ⟨⟨by decide, by decide, ?_⟩, ⟨by decide, by decide, ?_⟩⟩
  · have h := plot_peak_fits_default_range peaksMid 8 12 (by decide) (by decide)
    rw [h]
    norm_num [fBuffer]
  · have h := plot_peak_fits_default_range peaksLow 1 2 (by decide) (by decide)
    rw [h]
    norm_num [fBuffer]

/-- C10: called with a zero-row peak array and no explicit frequency
range, `plot_peak_fits` fails at the frequency-range derivation, since the
minimum over the empty set of center frequencies is undefined; a non-empty
peak array is a required precondition of that branch. -/
theorem plot_peak_fits_empty_fails :
    resolveFreqRange none ([] : List PeakRow) = none := rfl

/-- The NaN-safe sum step read at an in-bounds index adds the
NaN-as-zero value of the curve to the accumulator entry. -/
theorem nansumStep_getD (acc : List ℚ) (c : List (Option ℚ)) (j : Nat)
    (hj : j < acc.length) (hc : j < c.length) :
    (nansumStep acc c).getD j 0 = acc.getD j 0 + nanValAt c j := by
  have haj : acc.get? j = some (acc.getD j 0) := getq_eq_getD acc j 0 hj
  have hcj : c.get? j = some (c.getD j none) := getq_eq_getD c j none hc
  have hz : (nansumStep acc c).get? j =
      some (acc.getD j 0 + (c.getD j none).getD 0) := by
    unfold nansumStep
    rw [List.get?_zipWith', haj, hcj]
    rfl
  have hnv : nanValAt c j = (c.getD j none).getD 0 := by
    unfold nanValAt
    rw [hcj]
    cases c.getD j none <;> rfl
  rw [List.getD_eq_getElem?_getD, ← List.get?_eq_getElem?, hz, hnv]
  rfl

/-- The NaN-safe sum step keeps the accumulator length when the curve has
the same length. -/
theorem nansumStep_length (acc : List ℚ) (c : List (Option ℚ))
    (h : c.length = acc.length) : (nansumStep acc c).length = acc.length := by
  simp [nansumStep, h]

/-- Folding the NaN-safe sum over a list of curves of the axis length adds,
at every in-bounds index, the sum of the NaN-as-zero curve values to the
accumulator entry. -/
theorem avgVals_go (nFreqs : Nat) (curves : List (List (Option ℚ)))
    (hlen : ∀ c ∈ curves, c.length = nFreqs) :
    ∀ acc : List ℚ, acc.length = nFreqs → ∀ j, j < nFreqs →
      (curves.foldl nansumStep acc).getD j 0 =
        acc.getD j 0 + (curves.map (fun c => nanValAt c j)).sum ∧
      (curves.foldl nansumStep acc).length = nFreqs := by
  induction curves with
  | nil =>
    intro acc hacc j hj
    simpa using hacc
  | cons c cs ih =>
    intro acc hacc j hj
    have hc : c.length = nFreqs := hlen c (List.mem_cons_self c cs)
    have hsl : (nansumStep acc c).length = nFreqs := by
      rw [nansumStep_length acc c (by rw [hc, hacc]), hacc]
    have hrec := ih (fun x hx => hlen x (List.mem_cons_of_mem c hx))
      (nansumStep acc c) hsl j hj
    simp only [List.foldl_cons]
    refine ⟨?_, hrec.2⟩
    rw [hrec.1, nansumStep_getD acc c j (hacc ▸ hj) (hc ▸ hj)]
    simp [add_assoc]

/-- Zipping a constant accumulator against a curve of matching length is a
map over the curve. -/
theorem zipWith_replicate_eq_map (f : ℚ → Option ℚ → ℚ) (a : ℚ) :
    ∀ (c : List (Option ℚ)) (n : Nat), c.length = n →
      List.zipWith f (List.replicate n a) c = c.map (f a) := by
  intro c
  induction c with
  | nil => intro n _; simp
  | cons o t ih =>
    intro n hn
    cases n with
    | zero => simp at hn
    | succ m =>
      simp only [List.replicate_succ, List.zipWith_cons_cons, List.map_cons]
      rw [ih m (by simpa using hn)]

/-- Reading back the NaN-as-zero values of a curve with no missing entries
compares exactly equal to the curve. -/
theorem curveEq_map_getD (c : List (Option ℚ))
    (h : ∀ o ∈ c, o.isSome = true) :
    curveEq (c.map (fun o => o.getD 0)) c = true := by
  induction c with
  | nil => rfl
  | cons o t ih =>
    obtain ⟨v, rfl⟩ := Option.isSome_iff_exists.mp
      (h o (List.mem_cons_self o t))
    simp only [List.map_cons, Option.getD_some, curveEq]
    rw [ih (fun x hx => h x (List.mem_cons_of_mem _ hx))]
    simp

/-- C4 (amended): the averaged curve of `plot_peak_fits` is the NaN-safe
sum of the per-peak reconstructed curves, missing contributions treated as
zero, divided by the total number of peak rows and not by the count of
non-missing peaks; consequently, for a peak array with exactly one row
whose reconstructed curve contains no missing values, the averaged curve
equals that single curve exactly. -/
theorem avgCurve_nansum_total (nFreqs : Nat)
    (curves : List (List (Option ℚ)))
    (hlen : ∀ c ∈ curves, c.length = nFreqs) :
    (∀ j, j < nFreqs →
      (avgCurve nFreqs curves).getD j 0 =
        (curves.map (fun c => nanValAt c j)).sum / (curves.length : ℚ)) ∧
    (∀ c : List (Option ℚ), c.length = nFreqs →
      (∀ o ∈ c, o.isSome = true) →
      curveEq (avgCurve nFreqs [c]) c = true) := by
  constructor
  · intro j hj
    have hgo := avgVals_go nFreqs curves hlen (List.replicate nFreqs 0)
      (by simp) j hj
    have hrep : (List.replicate nFreqs (0 : ℚ)).getD j 0 = 0 := by
      rw [List.getD_eq_getElem?_getD, List.getElem?_replicate, if_pos hj]
      rfl
    have hav : (avgVals nFreqs curves).getD j 0 =
        (curves.map (fun c => nanValAt c j)).sum := by
      unfold avgVals
      rw [hgo.1, hrep, zero_add]
    have hj2 : j < (avgVals nFreqs curves).length := by
      unfold avgVals
      rw [hgo.2]
      exact hj
    unfold avgCurve
    rw [List.getD_eq_getElem?_getD, List.getElem?_map,
      ← List.get?_eq_getElem?, getq_eq_getD (avgVals nFreqs curves) j 0 hj2]
    simp only [Option.map_some, Option.map_some', Option.getD_some]
    rw [hav]
  · intro c hc hsome
    have hone : avgCurve nFreqs [c] = c.map (fun o => o.getD 0) := by
      unfold avgCurve avgVals
      simp only [List.foldl_cons, List.foldl_nil, List.length_singleton]
      rw [show nansumStep (List.replicate nFreqs 0) c =
            c.map (fun o => (0 : ℚ) + o.getD 0) from
          zipWith_replicate_eq_map (fun a o => a + o.getD 0) 0 c nFreqs hc]
      simp [List.map_map, Function.comp]
    rw [hone]
    exact curveEq_map_getD c hsome

/-- C4 counterexample: a single all-NaN peak row reconstructs an all-NaN
curve, yet the averaged curve is the zero vector, so the averaged curve
does not equal the single reconstructed curve exactly. -/
theorem avgCurve_single_nan_row :
    curveEq (avgCurve 1 [[none]]) [none] = false := by decide

/-- C4 witness: two curves over a two-point axis, one with a missing
entry, average by the NaN-safe sum over the total count of two, and the
one-row case reproduces a fully-present curve exactly. -/
theorem avgCurve_nansum_total_witness :
    (∀ c ∈ ([[some 1, some 2], [none, some 3]] : List (List (Option ℚ))),
      c.length = 2) ∧
    ((∀ j, j < 2 →
      (avgCurve 2 [[some 1, some 2], [none, some 3]]).getD j 0 =
        (([[some 1, some 2], [none, some 3]] :
            List (List (Option ℚ))).map (fun c => nanValAt c j)).sum /
          ((2 : Nat) : ℚ)) ∧
    (∀ c : List (Option ℚ), c.length = 2 → (∀ o ∈ c, o.isSome = true) →
      curveEq (avgCurve 2 [c]) c = true)) :=
  ⟨by decide,
   avgCurve_nansum_total 2 [[some 1, some 2], [none, some 3]] (by decide)⟩

/-- C7: in `save_time_report` and `save_event_report`, for every number of
bands and every combination of the knee and settings flags, the computed
number of grid rows equals the length of the computed height-ratio list,
so the data-dependent layout is always internally consistent. -/
theorem report_layout_consistent (nBands : Nat) (hasKnee addSettings : Bool) :
    (save_time_report_height_ratios nBands addSettings).length =
      save_time_report_n_rows nBands addSettings ∧
    (save_event_report_height_ratios nBands hasKnee addSettings).length =
      save_event_report_n_rows nBands hasKnee addSettings := by
  constructor
  · cases addSettings <;>
      simp [save_time_report_height_ratios, save_time_report_n_rows] <;>
      omega
  · cases hasKnee <;> cases addSettings <;>
      simp [save_event_report_height_ratios, save_event_report_n_rows,
        List.length_flatten, List.map_replicate, List.sum_replicate,
        smul_eq_mul] <;>
      omega

/-- C8 counterexample: `plot_peak_fits` carries no dependency guard, so
with matplotlib unavailable the call does not fail fast at entry with a
dependency error. -/
theorem plot_peak_fits_not_guarded :
    ¬ callEntry plot_peak_fits_decorated false =
        EntryOutcome.dependencyError := by decide

/-- C8 (amended): `plot_peak_params` and the four report functions are
wrapped by the dependency check and fail fast with an error when the
matplotlib rendering dependency is unavailable, while `plot_peak_fits` is
not wrapped and enters its body instead. -/
theorem dependency_check_coverage :
    callEntry plot_peak_params_decorated false =
      EntryOutcome.dependencyError ∧
    callEntry save_model_report_decorated false =
      EntryOutcome.dependencyError ∧
    callEntry save_group_report_decorated false =
      EntryOutcome.dependencyError ∧
    callEntry save_time_report_decorated false =
      EntryOutcome.dependencyError ∧
    callEntry save_event_report_decorated false =
      EntryOutcome.dependencyError ∧
    callEntry plot_peak_fits_decorated false =
      EntryOutcome.bodyEntered := by decide

/-- C9 counterexample: a failing save step in `save_model_report` aborts
the straight-line body before the close call, leaving the one created
figure open. -/
theorem save_report_leak_on_failure :
    runSteps (fun s => decide (s = RStep.saveFig))
      (save_model_report_steps true) 0 = Except.error 1 := rfl

/-- C9 (amended): on the success path every report variant closes the one
figure it created before returning; the bodies are straight-line with no
handler, so a failing rendering or save step skips the close call. -/
theorem save_report_closes_on_success (addSettings : Bool) :
    runSteps (fun _ => false) (save_model_report_steps addSettings) 0 =
      Except.ok 0 ∧
    runSteps (fun _ => false) (save_group_report_steps addSettings) 0 =
      Except.ok 0 ∧
    runSteps (fun _ => false) (save_time_report_steps addSettings) 0 =
      Except.ok 0 ∧
    runSteps (fun _ => false) (save_event_report_steps addSettings) 0 =
      Except.ok 0 := by
  cases addSettings <;> exact ⟨rfl, rfl, rfl, rfl⟩
